import Mathlib

/-!
Verification of the Notion content-sync layer of this repository
(src/lib/notion.ts and src/content.config.ts), as a shallow embedding.

The embedding keeps the source's names: richTextToPlain, getTitle,
getRichText, getSelect, getMultiSelect, getDate, getNumber, getCheckbox,
getUrl, getCover, getIcon, getSlug, cacheGet, queryDatabase, getBlocks,
getBlogPosts, getLessons, and the two collection loaders.

Modelling conventions:
- JavaScript strings are Lean Strings; the only falsy string is "".
- The file-system cache is modelled by passing the result of the cacheGet
  lookup for the relevant key explicitly (cold cache = none).
- async/await with exceptions is modelled with Except String; a thrown
  error before a statement means that statement never runs.
- The unbounded do/while pagination loops are modelled with explicit fuel
  returning Option (none = the loop did not finish within the fuel).
- Opaque remote pagination cursors are modelled as Nat offsets.
-/

namespace AprendeNotion

/-! ## Rich text and the page property bag (src/lib/notion.ts) -/

/-- One rich-text run; only its plain_text is consumed by this code. -/
structure RichTextItemResponse where
  plain_text : String
deriving DecidableEq, Repr

/-- Source: richTextToPlain — concatenation of the plain-text runs. -/
def richTextToPlain (rt : List RichTextItemResponse) : String :=
  String.join (rt.map (fun t => t.plain_text))

/-- A page property as a tagged variant, mirroring the type tags the
source inspects (title, rich_text, select, multi_select, date, number,
checkbox, url); `other` stands for any further Notion property type.
Nullable payloads (select, date, number, url) are Options. -/
inductive PropertyValue where
  | title (title : List RichTextItemResponse)
  | rich_text (rich_text : List RichTextItemResponse)
  | select (name : Option String)
  | multi_select (names : List String)
  | date (start : Option String)
  | number (number : Option Int)
  | checkbox (checkbox : Bool)
  | url (url : Option String)
  | other
deriving DecidableEq, Repr

/-- Page cover: external URL or uploaded file. -/
inductive CoverValue where
  | external (url : String)
  | file (url : String)
deriving DecidableEq, Repr

/-- Page icon: emoji literal, external URL, uploaded file, or any other
icon kind (which the source resolves to the empty string). -/
inductive IconValue where
  | emoji (emoji : String)
  | external (url : String)
  | file (url : String)
  | custom
deriving DecidableEq, Repr

/-- A PageObjectResponse as consumed here: id, property bag, cover, icon. -/
structure PageObjectResponse where
  id : String
  properties : List (String × PropertyValue)
  cover : Option CoverValue
  icon : Option IconValue
deriving DecidableEq, Repr

/-- Source: prop — page.properties[name] (undefined when absent). -/
def prop (page : PageObjectResponse) (name : String) : Option PropertyValue :=
  page.properties.lookup name

/-- Source: getTitle — plain text of a title property, default name 'Name'. -/
def getTitle (page : PageObjectResponse) (name : String := "Name") : String :=
  match prop page name with
  | some (.title rt) => richTextToPlain rt
  | _ => ""

/-- Source: getRichText. -/
def getRichText (page : PageObjectResponse) (name : String) : String :=
  match prop page name with
  | some (.rich_text rt) => richTextToPlain rt
  | _ => ""

/-- Source: getSelect — p.select?.name ?? ''. -/
def getSelect (page : PageObjectResponse) (name : String) : String :=
  match prop page name with
  | some (.select s) => s.getD ""
  | _ => ""

/-- Source: getMultiSelect — the option names. -/
def getMultiSelect (page : PageObjectResponse) (name : String) : List String :=
  match prop page name with
  | some (.multi_select ns) => ns
  | _ => []

/-- Source: getDate — p.date?.start ?? ''. -/
def getDate (page : PageObjectResponse) (name : String) : String :=
  match prop page name with
  | some (.date st) => st.getD ""
  | _ => ""

/-- Source: getNumber — p.number ?? 0. -/
def getNumber (page : PageObjectResponse) (name : String) : Int :=
  match prop page name with
  | some (.number n) => n.getD 0
  | _ => 0

/-- Source: getCheckbox. -/
def getCheckbox (page : PageObjectResponse) (name : String) : Bool :=
  match prop page name with
  | some (.checkbox b) => b
  | _ => false

/-- Source: getUrl — p.url ?? ''. -/
def getUrl (page : PageObjectResponse) (name : String) : String :=
  match prop page name with
  | some (.url u) => u.getD ""
  | _ => ""

/-- Source: getCover — resolve the cover union to a single string. -/
def getCover (page : PageObjectResponse) : String :=
  match page.cover with
  | none => ""
  | some (.external u) => u
  | some (.file u) => u

/-- Source: getIcon — resolve the icon union to a single string. -/
def getIcon (page : PageObjectResponse) : String :=
  match page.icon with
  | none => ""
  | some (.emoji e) => e
  | some (.external u) => u
  | some (.file u) => u
  | some .custom => ""

/-! ## Slug derivation (src/lib/notion.ts getSlug) -/

/-- JavaScript a || b on strings: the only falsy string is the empty one. -/
def jsOr (a b : String) : String := if a = "" then b else a

/-- Models the JavaScript builtin String.prototype.toLowerCase, restricted
to the character repertoire of this site's content: ASCII letters and the
Spanish accented letters; every other character is left unchanged. -/
def jsToLowerChar (c : Char) : Char :=
  if 'A' ≤ c ∧ c ≤ 'Z' then Char.ofNat (c.toNat + 32)
  else if c = 'Á' then 'á'
  else if c = 'É' then 'é'
  else if c = 'Í' then 'í'
  else if c = 'Ó' then 'ó'
  else if c = 'Ú' then 'ú'
  else if c = 'Ü' then 'ü'
  else if c = 'Ñ' then 'ñ'
  else c

/-- Models the JavaScript builtin String.prototype.normalize('NFD') on the
Latin repertoire used by this site: precomposed accented letters decompose
into the base letter followed by the combining mark (U+0301 acute,
U+0308 diaeresis, U+0303 tilde); every other character maps to itself. -/
def nfdChar (c : Char) : List Char :=
  if c = 'á' then ['a', '\u0301']
  else if c = 'é' then ['e', '\u0301']
  else if c = 'í' then ['i', '\u0301']
  else if c = 'ó' then ['o', '\u0301']
  else if c = 'ú' then ['u', '\u0301']
  else if c = 'ü' then ['u', '\u0308']
  else if c = 'ñ' then ['n', '\u0303']
  else if c = 'Á' then ['A', '\u0301']
  else if c = 'É' then ['E', '\u0301']
  else if c = 'Í' then ['I', '\u0301']
  else if c = 'Ó' then ['O', '\u0301']
  else if c = 'Ú' then ['U', '\u0301']
  else if c = 'Ü' then ['U', '\u0308']
  else if c = 'Ñ' then ['N', '\u0303']
  else [c]

/-- The combining diacritical marks block U+0300 to U+036F, the range of
characters the source's getSlug strips after NFD normalization. -/
def isCombiningMark (c : Char) : Bool :=
  0x300 ≤ c.toNat && c.toNat ≤ 0x36F

/-- Character class [a-z0-9] of the source's slug regex. -/
def isSlugAlnum (c : Char) : Bool :=
  ('a' ≤ c && c ≤ 'z') || ('0' ≤ c && c ≤ '9')

/-- replace(/[^a-z0-9]+/g, '-'): each maximal run of characters outside
[a-z0-9] becomes a single hyphen. The Bool argument records whether the
previous emitted character already closed such a run. -/
def collapseGo : Bool → List Char → List Char
  | _, [] => []
  | prevHyphen, c :: rest =>
    if isSlugAlnum c then c :: collapseGo false rest
    else if prevHyphen then collapseGo true rest
    else '-' :: collapseGo true rest

/-- replace(/(^-|-$)/g, ''): drop one leading and one trailing hyphen. -/
def trimHyphens (l : List Char) : List Char :=
  let l1 := if l.head? = some '-' then l.tail else l
  if l1.getLast? = some '-' then l1.dropLast else l1

/-- The title-to-slug pipeline of getSlug: toLowerCase, normalize('NFD'),
strip combining marks, collapse non-alphanumerics, trim hyphens. -/
def slugTransform (s : String) : String :=
  let cs := s.data.map jsToLowerChar
  let cs := (cs.map nfdChar).flatten
  let cs := cs.filter (fun c => !(isCombiningMark c))
  let cs := collapseGo false cs
  String.mk (trimHyphens cs)

/-- Source: getSlug — prefer a non-empty rich-text 'Slug' property
(returned verbatim), else the transliterated title with the source's
fallback chain 'Name' / 'Título' / 'Title'. -/
def getSlug (page : PageObjectResponse) : String :=
  let slugProp := getRichText page "Slug"
  if slugProp ≠ "" then slugProp
  else slugTransform (jsOr (getTitle page) (jsOr (getTitle page "Título") (getTitle page "Title")))

/-! ## Disk cache (src/lib/notion.ts cacheGet / CACHE_TTL) -/

/-- Source: CACHE_TTL = 1000 * 60 * 5 milliseconds. -/
def CACHE_TTL : Int := 1000 * 60 * 5

/-- Source: cacheGet. The on-disk entry for the key is passed explicitly
as the value/mtime pair the file system would report (none when the file
does not exist); now is Date.now() in milliseconds; isDev is the
dev-vs-production build mode flag. -/
def cacheGet {α : Type} (isDev : Bool) (now : Int) (entry : Option (α × Int)) : Option α :=
  match entry with
  | none => none
  | some (v, mtimeMs) =>
    if isDev ∧ now - mtimeMs > CACHE_TTL then none else some v

/-! ## Pagination walker (src/lib/notion.ts queryDatabase) -/

/-- One element of response.results for a data-source query: either a full
page object (which owns 'properties') or a partial record without them,
which the source's guard skips. -/
inductive RemoteResult where
  | page (p : PageObjectResponse)
  | noProps (id : String)
deriving DecidableEq, Repr

/-- The source's per-result guard: keep exactly the results that carry
'properties', in order. -/
def collectPages (rs : List RemoteResult) : List PageObjectResponse :=
  rs.filterMap (fun r =>
    match r with
    | .page p => some p
    | .noProps _ => none)

/-- A paginated remote response: results, has_more, next_cursor. -/
structure PageChunk (α : Type) where
  results : List α
  has_more : Bool
  next_cursor : Option Nat
deriving Repr

/-- A remote source holding the full list l and serving it in cursor pages
of size 100: the cursor is the offset of the page (absent = 0), has_more
reports whether records remain past this page, and next_cursor points at
the next page exactly when has_more. -/
def chunkAt {α : Type} (l : List α) (cursor : Option Nat) : PageChunk α :=
  let s := cursor.getD 0
  { results := (l.drop s).take 100
    has_more := decide (s + 100 < l.length)
    next_cursor := if s + 100 < l.length then some (s + 100) else none }

/-- The do/while loop of queryDatabase. Each iteration first reaches
getClient() — which throws 'NOTION_TOKEN is not set in .env' when the
token is absent — then queries the remote with the advancing cursor,
keeps the results that carry properties, and continues while the response
still reports more pages and a cursor. Fuel 0 means the loop did not
finish. -/
def queryLoop (token : Option String) (remote : Option Nat → PageChunk RemoteResult) :
    Nat → Option Nat → List PageObjectResponse → Option (Except String (List PageObjectResponse))
  | 0, _, _ => none
  | fuel + 1, cursor, acc =>
    match token with
    | none => some (Except.error "NOTION_TOKEN is not set in .env")
    | some _ =>
      let response := remote cursor
      let acc' := acc ++ collectPages response.results
      match (if response.has_more then response.next_cursor else none) with
      | none => some (Except.ok acc')
      | some c => queryLoop token remote fuel (some c) acc'

/-- Source: queryDatabase. cached is the cacheGet result for the key
db-{dataSourceId}; any hit — even an empty list, which is truthy in
JavaScript — is returned as is, otherwise the pagination loop runs with
an initially absent cursor. The remote argument stands for
dataSources.query already specialized to this query's data source,
filter and sorts. -/
def queryDatabase (token : Option String) (cached : Option (List PageObjectResponse))
    (remote : Option Nat → PageChunk RemoteResult) (fuel : Nat) :
    Option (Except String (List PageObjectResponse)) :=
  match cached with
  | some pages => some (Except.ok pages)
  | none => queryLoop token remote fuel none []

/-- Source: getBlogPosts — when NOTION_BLOG_DB is absent it returns []
without any remote call; otherwise it delegates to queryDatabase with the
Estado = Publicado filter and Fecha-descending sort (both folded into the
remote argument). -/
def getBlogPosts (dbId token : Option String) (cached : Option (List PageObjectResponse))
    (remote : Option Nat → PageChunk RemoteResult) (fuel : Nat) :
    Option (Except String (List PageObjectResponse)) :=
  match dbId with
  | none => some (Except.ok [])
  | some _ => queryDatabase token cached remote fuel

/-- Source: getLessons — same shape as getBlogPosts with NOTION_LESSONS_DB
and the Orden-ascending sort. -/
def getLessons (dbId token : Option String) (cached : Option (List PageObjectResponse))
    (remote : Option Nat → PageChunk RemoteResult) (fuel : Nat) :
    Option (Except String (List PageObjectResponse)) :=
  match dbId with
  | none => some (Except.ok [])
  | some _ => queryDatabase token cached remote fuel

/-! ## Recursive block resolver (src/lib/notion.ts getBlocks) -/

/-- A block as served by blocks.children.list before resolution: id, type
tag, has_children flag. -/
structure RawBlock where
  id : String
  btype : String
  has_children : Bool
deriving DecidableEq, Repr

/-- A block after getBlocks: the raw fields plus the children field the
source attaches when it resolves descendants (absent otherwise). -/
inductive BlockObjectResponse where
  | mk (id : String) (btype : String) (has_children : Bool)
      (children : Option (List BlockObjectResponse))

/-- Identifier of a resolved block. -/
def BlockObjectResponse.id : BlockObjectResponse → String
  | .mk i _ _ _ => i

/-- Type tag of a resolved block. -/
def BlockObjectResponse.btype : BlockObjectResponse → String
  | .mk _ t _ _ => t

/-- The has-descendants flag of a resolved block. -/
def BlockObjectResponse.has_children : BlockObjectResponse → Bool
  | .mk _ _ h _ => h

/-- The attached children of a resolved block, absent when the source
never attached them. -/
def BlockObjectResponse.children : BlockObjectResponse → Option (List BlockObjectResponse)
  | .mk _ _ _ c => c

mutual

/-- The do/while loop of getBlocks over the child pages of blockId, for a
remote whose container contents are given by env (blocks.children.list
serves env blockId in cursor pages of size 100, like queryDatabase's
remote). Cold cache throughout: over an acyclic source no block id
repeats, so every inner cacheGet misses. Fuel bounds loop iterations and
recursion depth together; none = not finished within the fuel. -/
def getBlocksGo (env : String → List RawBlock) :
    Nat → String → Option Nat → List BlockObjectResponse → Option (List BlockObjectResponse)
  | 0, _, _, _ => none
  | fuel + 1, blockId, cursor, acc =>
    let response := chunkAt (env blockId) cursor
    match resolveList env fuel response.results with
    | none => none
    | some out =>
      let acc' := acc ++ out
      match (if response.has_more then response.next_cursor else none) with
      | none => some acc'
      | some c => getBlocksGo env fuel blockId (some c) acc'
termination_by fuel _ _ _ => (fuel, 0, 0)

/-- The body of the for-loop of getBlocks over one page of results: push
each block, and for a block whose has_children flag is set, recursively
resolve its own container and attach the result as its children field. -/
def resolveList (env : String → List RawBlock) :
    Nat → List RawBlock → Option (List BlockObjectResponse)
  | _, [] => some []
  | fuel, b :: rest =>
    if b.has_children then
      match getBlocksGo env fuel b.id none [] with
      | none => none
      | some cs =>
        match resolveList env fuel rest with
        | none => none
        | some out => some (BlockObjectResponse.mk b.id b.btype b.has_children (some cs) :: out)
    else
      match resolveList env fuel rest with
      | none => none
      | some out => some (BlockObjectResponse.mk b.id b.btype b.has_children none :: out)
termination_by fuel l => (fuel, 1, l.length)

end

/-- Source: getBlocks. cached is the cacheGet result for blocks-{blockId}
(returned as is on a hit); on a miss the paginated, recursive resolution
runs with an initially absent cursor. -/
def getBlocks (cached : Option (List BlockObjectResponse)) (env : String → List RawBlock)
    (fuel : Nat) (blockId : String) : Option (List BlockObjectResponse) :=
  match cached with
  | some blocks => some blocks
  | none => getBlocksGo env fuel blockId none []

/-! ## Collection loaders (src/content.config.ts) -/

/-- The normalized blog item stored under its slug by notionBlogLoader. -/
structure BlogData where
  title : String
  description : String
  publishDate : String
  category : String
  emoji : String
  coverImage : Option String
  notionId : String
deriving DecidableEq, Repr

/-- The normalized lesson item stored under its slug by notionLessonsLoader. -/
structure LessonData where
  title : String
  description : String
  order : Int
  module : String
  emoji : String
  coverImage : Option String
  notionId : String
deriving DecidableEq, Repr

/-- store.set({id, data}) of the Astro store: replace the value under an
existing key in place, or append a new entry. -/
def storeSet {α : Type} : List (String × α) → String → α → List (String × α)
  | [], k, v => [(k, v)]
  | (k', v') :: t, k, v =>
    if k' = k then (k, v) :: t else (k', v') :: storeSet t k v

/-- The per-page normalization of notionBlogLoader's loop body; today is
new Date().toISOString().split('T')[0]. -/
def blogItem (today : String) (page : PageObjectResponse) : BlogData :=
  { title := jsOr (getTitle page) (getTitle page "Título")
    description := getRichText page "Descripción"
    publishDate := jsOr (getDate page "Fecha") today
    category := jsOr (getSelect page "Categoría") "Tutorial"
    emoji := jsOr (getRichText page "Emoji") (jsOr (getIcon page) "📝")
    coverImage := if getCover page = "" then none else some (getCover page)
    notionId := page.id }

/-- The per-page normalization of notionLessonsLoader's loop body; no
field of a lesson depends on the current date. -/
def lessonItem (_today : String) (page : PageObjectResponse) : LessonData :=
  { title := jsOr (getTitle page) (getTitle page "Título")
    description := getRichText page "Descripción"
    order := getNumber page "Orden"
    module := jsOr (getSelect page "Módulo") "Fundamentos"
    emoji := jsOr (getRichText page "Emoji") (jsOr (getIcon page) "📖")
    coverImage := if getCover page = "" then none else some (getCover page)
    notionId := page.id }

/-- Source: the load function of notionBlogLoader. fetched is the outcome
of await getBlogPosts(): an error thrown there propagates before
store.clear() runs, leaving the store untouched; on success the store is
cleared and repopulated from the fetched pages in order, keyed by slug.
Returns the final store and the escaped error, if any. -/
def notionBlogLoad (fetched : Except String (List PageObjectResponse)) (today : String)
    (store : List (String × BlogData)) : List (String × BlogData) × Option String :=
  match fetched with
  | .error e => (store, some e)
  | .ok pages =>
    (pages.foldl (fun st page => storeSet st (getSlug page) (blogItem today page)) [], none)

/-- Source: the load function of notionLessonsLoader, same shape as the
blog loader with the lesson normalization. -/
def notionLessonsLoad (fetched : Except String (List PageObjectResponse)) (today : String)
    (store : List (String × LessonData)) : List (String × LessonData) × Option String :=
  match fetched with
  | .error e => (store, some e)
  | .ok pages =>
    (pages.foldl (fun st page => storeSet st (getSlug page) (lessonItem today page)) [], none)

/-! ## Concrete instances used by the theorems below -/

/-- A page titled like the spec's slug example, with no explicit slug. -/
def examplePage : PageObjectResponse :=
  { id := "page-1"
    properties := [("Name", PropertyValue.title [{ plain_text := "¿Cómo usar Notion?" }])]
    cover := none
    icon := none }

/-- A page carrying the spec's explicit slug example. -/
def exampleCustomSlugPage : PageObjectResponse :=
  { id := "page-2"
    properties :=
      [("Name", PropertyValue.title [{ plain_text := "Otra página" }]),
       ("Slug", PropertyValue.rich_text [{ plain_text := "mi-slug-custom" }])]
    cover := none
    icon := none }

/-- A page whose explicit slug property is not URL-safe. -/
def badSlugPage : PageObjectResponse :=
  { id := "page-3"
    properties :=
      [("Name", PropertyValue.title [{ plain_text := "Una página" }]),
       ("Slug", PropertyValue.rich_text [{ plain_text := "Mi Slug!" }])]
    cover := none
    icon := none }

/-- A page whose only property is a lesson order number. -/
def ordenPage : PageObjectResponse :=
  { id := "page-4"
    properties := [("Orden", PropertyValue.number (some 3))]
    cover := none
    icon := none }

/-- A remote source with a single empty page of results. -/
def emptyRemote : Option Nat → PageChunk RemoteResult :=
  fun _ => { results := [], has_more := false, next_cursor := none }

/-- A page with an explicit slug s and nothing else. -/
def slugOnlyPage (s : String) : PageObjectResponse :=
  { id := "id-" ++ s
    properties := [("Slug", PropertyValue.rich_text [{ plain_text := s }])]
    cover := none
    icon := none }

/-- A page whose title has no alphanumeric characters and which has no
explicit slug property. -/
def noAlnumTitlePage : PageObjectResponse :=
  { id := "page-5"
    properties := [("Name", PropertyValue.title [{ plain_text := "???" }])]
    cover := none
    icon := none }

/-- A synthetic block source of depth 3: container r holds x, x holds y,
y holds the leaf z; every node below the root container reports
has_children except the leaf. -/
def envEx : String → List RawBlock := fun id =>
  if id = "r" then [{ id := "x", btype := "toggle", has_children := true }]
  else if id = "x" then [{ id := "y", btype := "toggle", has_children := true }]
  else if id = "y" then [{ id := "z", btype := "paragraph", has_children := false }]
  else []

/-- A depth measure for envEx witnessing its acyclicity. -/
def dEx : String → Nat := fun id =>
  if id = "r" then 3 else if id = "x" then 2 else if id = "y" then 1 else 0

/-! ## Predicates used by the theorems -/

/-- No two adjacent hyphens, the shape enforced by the run-collapsing
replace of the slug pipeline. -/
def noDoubleHyphen : List Char → Bool
  | c1 :: c2 :: rest => !(c1 == '-' && c2 == '-') && noDoubleHyphen (c2 :: rest)
  | _ => true

/-- URL-safety in the sense of claim C8: only lowercase ASCII
alphanumerics and hyphens, no leading hyphen, no trailing hyphen. -/
def urlSafe (s : String) : Bool :=
  s.data.all (fun c => isSlugAlnum c || c == '-') &&
  !(s.data.head? == some '-') &&
  !(s.data.getLast? == some '-')

/-- out is the complete, ordered, fully resolved rendering of the raw
child list raws over the block source env: blocks appear in the source
order, a block without descendants carries no children field, and a block
with descendants carries the recursive resolution of its own container. -/
inductive Resolves (env : String → List RawBlock) :
    List RawBlock → List BlockObjectResponse → Prop where
  | nil : Resolves env [] []
  | leaf (b : RawBlock) (rest : List RawBlock) (out : List BlockObjectResponse) :
      b.has_children = false →
      Resolves env rest out →
      Resolves env (b :: rest) (BlockObjectResponse.mk b.id b.btype b.has_children none :: out)
  | node (b : RawBlock) (rest : List RawBlock) (cs out : List BlockObjectResponse) :
      b.has_children = true →
      Resolves env (env b.id) cs →
      Resolves env rest out →
      Resolves env (b :: rest)
        (BlockObjectResponse.mk b.id b.btype b.has_children (some cs) :: out)

/-- Membership anywhere in a forest of resolved blocks: at the top level,
or inside the attached children of some block, at any depth. -/
inductive InTree : BlockObjectResponse → List BlockObjectResponse → Prop where
  | here (b : BlockObjectResponse) (l : List BlockObjectResponse) :
      b ∈ l → InTree b l
  | deeper (b b' : BlockObjectResponse) (l cs : List BlockObjectResponse) :
      b' ∈ l → b'.children = some cs → InTree b cs → InTree b l

/-! ## Theorems -/

/-- C5: cacheGet is asymmetric by build mode. In dev mode an entry written
at time T is returned unchanged for reads before T plus the 5-minute
CACHE_TTL and treated as absent (null, forcing re-fetch) for reads after
it; in a production build the same entry is returned unchanged regardless
of the elapsed time. -/
theorem cacheGet_mode_asymmetry : ∀ (α : Type) (v : α) (T t : Int),
    (t < T + CACHE_TTL → cacheGet true t (some (v, T)) = some v) ∧
    (t > T + CACHE_TTL → cacheGet true t (some (v, T)) = none) ∧
    cacheGet false t (some (v, T)) = some v := by
  intro α v T t
  refine ⟨?_, ?_, ?_⟩
  · intro h
    simp only [cacheGet, CACHE_TTL] at *
    rw [if_neg]
    simp only [true_and, not_lt]
    omega
  · intro h
    simp only [cacheGet, CACHE_TTL] at *
    rw [if_pos]
    simp only [true_and]
    omega
  · simp [cacheGet]

/-- Witness for C5 at a concrete entry: written at T = 0, read in dev mode
at 4 minutes (served) and 6 minutes (absent), and in build mode at
6 minutes (served). -/
theorem cacheGet_mode_asymmetry_witness :
    ((240000 : Int) < 0 + CACHE_TTL ∧ cacheGet true 240000 (some ((7 : Nat), (0 : Int))) = some 7) ∧
    ((360000 : Int) > 0 + CACHE_TTL ∧ cacheGet true 360000 (some ((7 : Nat), (0 : Int))) = none) ∧
    cacheGet false 360000 (some ((7 : Nat), (0 : Int))) = some 7 :=
  ⟨⟨by decide, (cacheGet_mode_asymmetry Nat 7 0 240000).1 (by decide)⟩,
   ⟨by decide, (cacheGet_mode_asymmetry Nat 7 0 360000).2.1 (by decide)⟩,
   (cacheGet_mode_asymmetry Nat 7 0 360000).2.2⟩

/-- C10: in both collection loaders the store is cleared only after the
remote query has succeeded: when getBlogPosts or getLessons throws, load
ends with that error and the store keeps its previous contents. -/
theorem loader_atomic_on_fetch_error : ∀ (e today : String)
    (s1 : List (String × BlogData)) (s2 : List (String × LessonData)),
    notionBlogLoad (Except.error e) today s1 = (s1, some e) ∧
    notionLessonsLoad (Except.error e) today s2 = (s2, some e) := by
  intro e today s1 s2
  exact ⟨rfl, rfl⟩

/-- C9: with a warm cache the query returns the cached pages unchanged,
and running a loader twice over the same fetched pages leaves the store
of the second run identical to the store of the first: the result does
not depend on the store the run started from. -/
theorem loader_idempotent_warm_cache : ∀ (token : Option String)
    (remote : Option Nat → PageChunk RemoteResult) (fuel : Nat)
    (cachedPages : List PageObjectResponse) (today : String)
    (s1 : List (String × BlogData)) (s2 : List (String × LessonData)),
    queryDatabase token (some cachedPages) remote fuel = some (Except.ok cachedPages) ∧
    (notionBlogLoad (Except.ok cachedPages) today
        (notionBlogLoad (Except.ok cachedPages) today s1).1).1 =
      (notionBlogLoad (Except.ok cachedPages) today s1).1 ∧
    (notionLessonsLoad (Except.ok cachedPages) today
        (notionLessonsLoad (Except.ok cachedPages) today s2).1).1 =
      (notionLessonsLoad (Except.ok cachedPages) today s2).1 := by
  intro token remote fuel cachedPages today s1 s2
  exact ⟨rfl, rfl, rfl⟩

/-- Counterexample to C2 as stated: with the database identifier absent,
getBlogPosts returns Except.ok [] — the sync completes normally with zero
records instead of aborting with a fatal error, and the loader finishes
with an empty store and no error. -/
theorem getBlogPosts_missing_dbid_completes_normally :
    getBlogPosts none (some "secret-token") none emptyRemote 5 = some (Except.ok []) ∧
    notionBlogLoad (Except.ok []) "2026-10-11" [] = ([], none) :=
  ⟨rfl, rfl⟩

/-- C2 amended: when the database identifier is absent, getBlogPosts and
getLessons return an empty list without any remote call, so the sync
completes normally with zero records; a missing auth token (identifier
present, cold cache) makes the first remote call fail with the
NOTION_TOKEN error, aborting the sync. -/
theorem missing_config_behavior : ∀ (token : Option String)
    (cached : Option (List PageObjectResponse))
    (remote : Option Nat → PageChunk RemoteResult) (fuel : Nat) (dbid2 : String),
    getBlogPosts none token cached remote fuel = some (Except.ok []) ∧
    getLessons none token cached remote fuel = some (Except.ok []) ∧
    getBlogPosts (some dbid2) none none remote (fuel + 1) =
      some (Except.error "NOTION_TOKEN is not set in .env") ∧
    getLessons (some dbid2) none none remote (fuel + 1) =
      some (Except.error "NOTION_TOKEN is not set in .env") := by
  intro token cached remote fuel dbid2
  exact ⟨rfl, rfl, rfl, rfl⟩

/-- C3: getSlug prefers a non-empty explicit rich-text 'Slug' property and
returns it; otherwise it transliterates the title — lowercase, diacritics
stripped, runs of non-alphanumerics collapsed to single hyphens, leading
and trailing hyphens trimmed. On the spec's examples: the title
"¿Cómo usar Notion?" with no slug property yields "como-usar-notion", and
the explicit slug "mi-slug-custom" overrides the title-derived slug. -/
theorem getSlug_derivation : ∀ (page : PageObjectResponse),
    (getRichText page "Slug" ≠ "" → getSlug page = getRichText page "Slug") ∧
    (getRichText page "Slug" = "" →
      getSlug page =
        slugTransform (jsOr (getTitle page) (jsOr (getTitle page "Título") (getTitle page "Title")))) ∧
    getSlug examplePage = "como-usar-notion" ∧
    getSlug exampleCustomSlugPage = "mi-slug-custom" := by
  intro page
  refine ⟨?_, ?_, by decide, by decide⟩
  · intro h
    rw [getSlug]
    simp only [h, if_pos, ne_eq, not_false_iff, if_true]
  · intro h
    rw [getSlug]
    simp only [h, ne_eq, not_true, if_false]

/-- Witness for C3 at concrete pages: the override branch applied to the
page with the explicit slug, and the transliteration branch applied to
the page whose Slug property is absent. -/
theorem getSlug_derivation_witness :
    (getRichText exampleCustomSlugPage "Slug" ≠ "" ∧
      getSlug exampleCustomSlugPage = getRichText exampleCustomSlugPage "Slug") ∧
    (getRichText examplePage "Slug" = "" ∧
      getSlug examplePage =
        slugTransform (jsOr (getTitle examplePage)
          (jsOr (getTitle examplePage "Título") (getTitle examplePage "Title")))) :=
  ⟨⟨by decide, (getSlug_derivation exampleCustomSlugPage).1 (by decide)⟩,
   ⟨by decide, (getSlug_derivation examplePage).2.1 (by decide)⟩⟩

/-- C4: each typed projection returns the typed value when the named
property carries the expected type tag, and the zero-value default for
that type (empty string, 0, false, empty list) when the property is
absent or has a different tag; being total Lean functions, no input makes
them raise. -/
theorem projection_soft_fail_defaults : ∀ (page : PageObjectResponse) (name : String),
    (∀ rt, prop page name = some (.title rt) → getTitle page name = richTextToPlain rt) ∧
    ((∀ rt, prop page name ≠ some (.title rt)) → getTitle page name = "") ∧
    (∀ rt, prop page name = some (.rich_text rt) → getRichText page name = richTextToPlain rt) ∧
    ((∀ rt, prop page name ≠ some (.rich_text rt)) → getRichText page name = "") ∧
    (∀ s, prop page name = some (.select s) → getSelect page name = s.getD "") ∧
    ((∀ s, prop page name ≠ some (.select s)) → getSelect page name = "") ∧
    (∀ ns, prop page name = some (.multi_select ns) → getMultiSelect page name = ns) ∧
    ((∀ ns, prop page name ≠ some (.multi_select ns)) → getMultiSelect page name = []) ∧
    (∀ n, prop page name = some (.number n) → getNumber page name = n.getD 0) ∧
    ((∀ n, prop page name ≠ some (.number n)) → getNumber page name = 0) ∧
    (∀ b, prop page name = some (.checkbox b) → getCheckbox page name = b) ∧
    ((∀ b, prop page name ≠ some (.checkbox b)) → getCheckbox page name = false) ∧
    (∀ u, prop page name = some (.url u) → getUrl page name = u.getD "") ∧
    ((∀ u, prop page name ≠ some (.url u)) → getUrl page name = "") := by
  intro page name
  refine ⟨?_, ?_, ?_, ?_, ?_, ?_, ?_, ?_, ?_, ?_, ?_, ?_, ?_, ?_⟩ <;>
    first
      | (intro x h
         simp [getTitle, getRichText, getSelect, getMultiSelect, getNumber, getCheckbox, getUrl, h])
      | (intro hne
         rcases h : prop page name with _ | v
         · simp [getTitle, getRichText, getSelect, getMultiSelect, getNumber, getCheckbox, getUrl, h]
         · cases v <;>
             first
               | exact absurd h (hne _)
               | simp [getTitle, getRichText, getSelect, getMultiSelect, getNumber,
                   getCheckbox, getUrl, h])

/-- Witness for C4 at a concrete page: the matching-tag case on the Orden
number property, and the mismatch cases on an absent Name title and an
absent checkbox. -/
theorem projection_soft_fail_defaults_witness :
    (prop ordenPage "Orden" = some (PropertyValue.number (some 3)) ∧
      getNumber ordenPage "Orden" = (some (3 : Int)).getD 0) ∧
    getTitle ordenPage "Name" = "" ∧
    getCheckbox ordenPage "Hecho" = false :=
  ⟨⟨by decide,
    (projection_soft_fail_defaults ordenPage "Orden").2.2.2.2.2.2.2.2.1 (some 3) (by decide)⟩,
   (projection_soft_fail_defaults ordenPage "Name").2.1
     (fun rt h => by simp [prop, ordenPage, List.lookup] at h),
   (projection_soft_fail_defaults ordenPage "Hecho").2.2.2.2.2.2.2.2.2.2.2.1
     (fun b h => by simp [prop, ordenPage, List.lookup] at h)⟩

/-- The properties-guard keeps every full page object, in order. -/
theorem collectPages_map_page (l : List PageObjectResponse) :
    collectPages (l.map RemoteResult.page) = l := by
  induction l with
  | nil => rfl
  | cons p t ih => simpa [collectPages] using ih

/-- Invariant of queryDatabase's do/while loop against a remote serving
the list records in cursor pages of 100: started at offset s with enough
fuel, it ends with the accumulator extended by every record from s on. -/
theorem queryLoop_chunk (tok : String) (records : List PageObjectResponse)
    (R : Option Nat → PageChunk RemoteResult)
    (hR : ∀ cur, R cur = chunkAt (records.map RemoteResult.page) cur) :
    ∀ (fuel s : Nat) (acc : List PageObjectResponse) (c : Option Nat),
    c.getD 0 = s → 1 ≤ fuel → records.length ≤ s + 100 * fuel →
    queryLoop (some tok) R fuel c acc = some (Except.ok (acc ++ records.drop s)) := by
  intro fuel
  induction fuel with
  | zero => intro s acc c hc h1 h2; omega
  | succ f ih =>
    intro s acc c hc h1 h2
    rw [queryLoop, hR c]
    simp only [chunkAt, hc, List.length_map, ← List.map_drop, ← List.map_take,
      collectPages_map_page]
    by_cases hm : s + 100 < records.length
    · simp only [hm, decide_True, if_true]
      rw [ih (s + 100) (acc ++ (records.drop s).take 100) (some (s + 100)) rfl
        (by omega) (by omega)]
      have hdd : records.drop (s + 100) = (records.drop s).drop 100 := by
        rw [List.drop_drop]
      rw [hdd, List.append_assoc, List.take_append_drop]
    · have htake : (records.drop s).take 100 = records.drop s :=
        List.take_of_length_le (by simp [List.length_drop]; omega)
      simp only [hm, decide_False, if_false, Bool.false_eq_true, htake]

/-- C1: against a remote source reporting the list records across cursor
pages of size 100, a cold-cache queryDatabase accumulates every page —
starting with no cursor, following the returned cursor while has_more,
stopping when none is returned — and yields exactly those records in
source order, for every length including 0, 100, 101 and 250; the fuel
length / 100 + 1 bounds the number of loop iterations actually taken. -/
theorem queryDatabase_returns_all_records : ∀ (tok : String) (records : List PageObjectResponse),
    queryDatabase (some tok) none (fun cur => chunkAt (records.map RemoteResult.page) cur)
      (records.length / 100 + 1) = some (Except.ok records) := by
  intro tok records
  have h := queryLoop_chunk tok records
    (fun cur => chunkAt (records.map RemoteResult.page) cur) (fun _ => rfl)
    (records.length / 100 + 1) 0 [] none rfl (by omega) (by omega)
  simpa [queryDatabase] using h

/-- Looking up k after store.set k' v: the new value when k is k', the
previous association otherwise. -/
theorem lookup_storeSet {α : Type} : ∀ (st : List (String × α)) (k k' : String) (v : α),
    (storeSet st k' v).lookup k = if k = k' then some v else st.lookup k := by
  intro st
  induction st with
  | nil =>
    intro k k' v
    by_cases h : k = k'
    · simp [storeSet, List.lookup, h]
    · have hb : (k == k') = false := by simp [h]
      simp [storeSet, List.lookup, h, hb]
  | cons hd t ih =>
    intro k k' v
    rcases hd with ⟨a, b⟩
    by_cases h1 : a = k'
    · subst h1
      by_cases h2 : k = a
      · simp [storeSet, List.lookup, h2]
      · have hb : (k == a) = false := by simp [h2]
        simp [storeSet, List.lookup, h2, hb]
    · by_cases h2 : k = a
      · subst h2
        simp [storeSet, List.lookup, h1]
      · have hb : (k == a) = false := by simp [h2]
        simp [storeSet, List.lookup, h1, h2, hb, ih]

/-- A key is present after clear-then-repopulate over pages exactly when
it is present in the initial store or is the slug of one of the pages. -/
theorem lookup_foldl_isSome {α : Type} (item : PageObjectResponse → α) :
    ∀ (pages : List PageObjectResponse) (st : List (String × α)) (k : String),
    ((pages.foldl (fun s p => storeSet s (getSlug p) (item p)) st).lookup k).isSome = true
      ↔ (k ∈ pages.map getSlug ∨ (st.lookup k).isSome = true) := by
  intro pages
  induction pages with
  | nil => simp
  | cons p t ih =>
    intro st k
    simp only [List.foldl_cons, List.map_cons, List.mem_cons]
    rw [ih, lookup_storeSet]
    by_cases h : k = getSlug p <;> simp [h, or_assoc]

/-- C6: after a successful load, the store holds exactly the items of
that cycle, keyed by slug — a key is present iff it is the slug of one of
the fetched pages, for both loaders — and on the spec's scenario, a first
run over slugs a, b, c followed by a second run whose result set yields
slugs a, d leaves the store with exactly the keys a and d. -/
theorem store_reflects_cycle_exactly : ∀ (today : String) (pages : List PageObjectResponse)
    (sb : List (String × BlogData)) (sl : List (String × LessonData)) (k : String),
    (((notionBlogLoad (Except.ok pages) today sb).1.lookup k).isSome = true
      ↔ k ∈ pages.map getSlug) ∧
    (((notionLessonsLoad (Except.ok pages) today sl).1.lookup k).isSome = true
      ↔ k ∈ pages.map getSlug) ∧
    ((notionBlogLoad (Except.ok [slugOnlyPage "a", slugOnlyPage "d"]) today
        (notionBlogLoad
          (Except.ok [slugOnlyPage "a", slugOnlyPage "b", slugOnlyPage "c"]) today
          []).1).1.map Prod.fst) = ["a", "d"] := by
  intro today pages sb sl k
  refine ⟨?_, ?_, rfl⟩
  · rw [notionBlogLoad]
    simpa using lookup_foldl_isSome (blogItem today) pages [] k
  · rw [notionLessonsLoad]
    simpa using lookup_foldl_isSome (lessonItem today) pages [] k

/-- Witness for C6 at a concrete run: after loading the single page with
slug a, the key a is present and the key b is not. -/
theorem store_reflects_cycle_exactly_witness :
    (((notionBlogLoad (Except.ok [slugOnlyPage "a"]) "2026-10-11" []).1.lookup "a").isSome
      = true) ∧
    ¬ (((notionBlogLoad (Except.ok [slugOnlyPage "a"]) "2026-10-11" []).1.lookup "b").isSome
      = true) :=
  ⟨(store_reflects_cycle_exactly "2026-10-11" [slugOnlyPage "a"] [] [] "a").1.mpr
      (by decide),
   fun h =>
     absurd ((store_reflects_cycle_exactly "2026-10-11" [slugOnlyPage "a"] [] [] "b").1.mp h)
       (by decide)⟩

/-- A character of the slug alphabet is not the hyphen. -/
theorem isSlugAlnum_ne_hyphen {c : Char} (h : isSlugAlnum c = true) : (c == '-') = false := by
  by_cases hc : c = '-'
  · subst hc; simp [isSlugAlnum] at h
  · simp [hc]

/-- Extending a no-double-hyphen list with a safe head keeps the shape. -/
theorem noDD_cons (c : Char) (t : List Char)
    (h : ∀ c2, t.head? = some c2 → (c == '-' && c2 == '-') = false)
    (ht : noDoubleHyphen t = true) : noDoubleHyphen (c :: t) = true := by
  cases t with
  | nil => rfl
  | cons c2 r =>
    have h2 := h c2 rfl
    simp only [noDoubleHyphen, h2, Bool.not_false, Bool.true_and]
    exact ht

/-- The tail of a no-double-hyphen list has no double hyphen. -/
theorem noDD_tail (c : Char) (t : List Char) (h : noDoubleHyphen (c :: t) = true) :
    noDoubleHyphen t = true := by
  cases t with
  | nil => rfl
  | cons c2 r =>
    simp only [noDoubleHyphen, Bool.and_eq_true] at h
    exact h.2

/-- Every character the run-collapsing pass emits is in the slug
alphabet or is the hyphen. -/
theorem collapseGo_mem (l : List Char) : ∀ (b : Bool) (c : Char),
    c ∈ collapseGo b l → isSlugAlnum c = true ∨ c = '-' := by
  induction l with
  | nil => intro b c h; simp [collapseGo] at h
  | cons x rest ih =>
    intro b c h
    rw [collapseGo] at h
    by_cases hx : isSlugAlnum x = true
    · rw [if_pos hx] at h
      rcases List.mem_cons.mp h with h | h
      · exact Or.inl (h ▸ hx)
      · exact ih false c h
    · rw [if_neg hx] at h
      cases b with
      | true =>
        simp only [if_pos] at h
        exact ih true c h
      | false =>
        simp only [Bool.false_eq_true, if_false] at h
        rcases List.mem_cons.mp h with h | h
        · exact Or.inr h
        · exact ih true c h

/-- Right after a collapsed run, the next emitted character is
alphanumeric: the pass never emits two hyphens in a row. -/
theorem collapseGo_true_head (l : List Char) : ∀ c,
    (collapseGo true l).head? = some c → isSlugAlnum c = true := by
  induction l with
  | nil => intro c h; simp [collapseGo] at h
  | cons x rest ih =>
    intro c h
    rw [collapseGo] at h
    by_cases hx : isSlugAlnum x = true
    · rw [if_pos hx] at h
      simp only [List.head?_cons, Option.some.injEq] at h
      exact h ▸ hx
    · rw [if_neg hx] at h
      simp only [if_pos] at h
      exact ih c h

/-- The run-collapsing pass never emits two adjacent hyphens. -/
theorem collapseGo_noDD (l : List Char) : ∀ b, noDoubleHyphen (collapseGo b l) = true := by
  induction l with
  | nil => intro b; rfl
  | cons x rest ih =>
    intro b
    rw [collapseGo]
    by_cases hx : isSlugAlnum x = true
    · rw [if_pos hx]
      refine noDD_cons _ _ (fun c2 h2 => ?_) (ih false)
      simp [isSlugAlnum_ne_hyphen hx]
    · rw [if_neg hx]
      cases b with
      | true =>
        simp only [if_pos]
        exact ih true
      | false =>
        simp only [Bool.false_eq_true, if_false]
        refine noDD_cons _ _ (fun c2 h2 => ?_) (ih true)
        have hc2 := collapseGo_true_head rest c2 h2
        simp [isSlugAlnum_ne_hyphen hc2]

/-- Dropping the last element leaves the head unchanged or nothing. -/
theorem head?_dropLast_cases (l : List Char) :
    l.dropLast.head? = none ∨ l.dropLast.head? = l.head? := by
  cases l with
  | nil => exact Or.inl rfl
  | cons x t =>
    cases t with
    | nil => exact Or.inl rfl
    | cons y r => right; simp

/-- In a no-double-hyphen list ending in a hyphen, the element before
the final hyphen is not a hyphen. -/
theorem getLast?_dropLast_ne : ∀ (l : List Char), noDoubleHyphen l = true →
    l.getLast? = some '-' → ∀ c, l.dropLast.getLast? = some c → (c == '-') = false := by
  intro l
  induction l with
  | nil => intro _ hl; simp at hl
  | cons x t ih =>
    intro hnd hl c hc
    cases t with
    | nil => simp at hc
    | cons y r =>
      have hnd' : noDoubleHyphen (y :: r) = true := noDD_tail x _ hnd
      have hl' : (y :: r).getLast? = some '-' := by rwa [List.getLast?_cons_cons] at hl
      rw [List.dropLast_cons₂] at hc
      cases hdl : (y :: r).dropLast with
      | nil =>
        rw [hdl] at hc
        simp only [List.getLast?_singleton, Option.some.injEq] at hc
        have hr : r = [] := by
          cases r with
          | nil => rfl
          | cons z rr => simp [List.dropLast_cons₂] at hdl
        subst hr
        have hy : y = '-' := by simpa using hl'
        subst hy
        simp only [noDoubleHyphen, Bool.and_eq_true, Bool.not_eq_true',
          Bool.and_eq_false_iff] at hnd
        rcases hnd.1 with hx | hx
        · rw [← hc]; exact hx
        · simp at hx
      | cons z rr =>
        rw [hdl, List.getLast?_cons_cons] at hc
        exact ih hnd' hl' c (by rw [hdl]; exact hc)

/-- Trimming hyphens only removes elements. -/
theorem trimHyphens_mem (l : List Char) (c : Char) (h : c ∈ trimHyphens l) : c ∈ l := by
  unfold trimHyphens at h
  set l1 := if l.head? = some '-' then l.tail else l with hl1
  have hsub : c ∈ l1 → c ∈ l := by
    intro hm
    rw [hl1] at hm
    by_cases hh : l.head? = some '-'
    · rw [if_pos hh] at hm
      exact List.mem_of_mem_tail hm
    · rwa [if_neg hh] at hm
  by_cases hg : l1.getLast? = some '-'
  · rw [if_pos hg] at h
    exact hsub ((List.dropLast_sublist l1).mem h)
  · rw [if_neg hg] at h
    exact hsub h

/-- After trimming, a no-double-hyphen list does not start with a
hyphen. -/
theorem trimHyphens_head (l : List Char) (hnd : noDoubleHyphen l = true) :
    ∀ c, (trimHyphens l).head? = some c → (c == '-') = false := by
  intro c hc
  unfold trimHyphens at hc
  set l1 := if l.head? = some '-' then l.tail else l with hl1
  have hh1 : ∀ c1, l1.head? = some c1 → (c1 == '-') = false := by
    intro c1 h1
    rw [hl1] at h1
    by_cases hh : l.head? = some '-'
    · rw [if_pos hh] at h1
      cases l with
      | nil => simp at hh
      | cons x t =>
        simp only [List.head?_cons, Option.some.injEq] at hh
        subst hh
        cases t with
        | nil => simp at h1
        | cons y r =>
          simp only [List.tail_cons, List.head?_cons, Option.some.injEq] at h1
          subst h1
          simp only [noDoubleHyphen, Bool.and_eq_true, Bool.not_eq_true',
            Bool.and_eq_false_iff] at hnd
          rcases hnd.1 with hx' | hx'
          · simp at hx'
          · exact hx'
    · rw [if_neg hh] at h1
      by_cases hc1 : c1 = '-'
      · subst hc1; exact absurd h1 hh
      · simp [hc1]
  by_cases hg : l1.getLast? = some '-'
  · rw [if_pos hg] at hc
    rcases head?_dropLast_cases l1 with hd | hd
    · rw [hd] at hc; exact absurd hc (by simp)
    · rw [hd] at hc; exact hh1 c hc
  · rw [if_neg hg] at hc
    exact hh1 c hc

/-- The leading-hyphen strip of the trim preserves the no-double-hyphen
shape. -/
theorem noDD_l1 (l : List Char) (hnd : noDoubleHyphen l = true) :
    noDoubleHyphen (if l.head? = some '-' then l.tail else l) = true := by
  by_cases hh : l.head? = some '-'
  · rw [if_pos hh]
    cases l with
    | nil => rfl
    | cons x t => exact noDD_tail x t hnd
  · rwa [if_neg hh]

/-- After trimming, a no-double-hyphen list does not end with a
hyphen. -/
theorem trimHyphens_last (l : List Char) (hnd : noDoubleHyphen l = true) :
    ∀ c, (trimHyphens l).getLast? = some c → (c == '-') = false := by
  intro c hc
  unfold trimHyphens at hc
  set l1 := if l.head? = some '-' then l.tail else l with hl1
  have hnd1 : noDoubleHyphen l1 = true := hl1 ▸ noDD_l1 l hnd
  by_cases hg : l1.getLast? = some '-'
  · rw [if_pos hg] at hc
    exact getLast?_dropLast_ne l1 hnd1 hg c hc
  · rw [if_neg hg] at hc
    by_cases hcc : c = '-'
    · subst hcc; exact absurd hc hg
    · simp [hcc]

/-- The collapse-then-trim tail of the slug pipeline always yields a
URL-safe string. -/
theorem urlSafe_trim_collapse (cs : List Char) :
    urlSafe (String.mk (trimHyphens (collapseGo false cs))) = true := by
  have hnd := collapseGo_noDD cs false
  rw [urlSafe]
  set r := trimHyphens (collapseGo false cs) with hr
  simp only [Bool.and_eq_true]
  refine ⟨⟨?_, ?_⟩, ?_⟩
  · rw [List.all_eq_true]
    intro c hcm
    rcases collapseGo_mem cs false c (trimHyphens_mem _ c (hr ▸ hcm)) with h | h
    · simp [h]
    · simp [h]
  · cases hh : r.head? with
    | none => rfl
    | some c =>
      have hc := trimHyphens_head (collapseGo false cs) hnd c (by rw [← hr]; exact hh)
      show (!(c == '-')) = true
      rw [hc]
      rfl
  · cases hh : r.getLast? with
    | none => rfl
    | some c =>
      have hc := trimHyphens_last (collapseGo false cs) hnd c (by rw [← hr]; exact hh)
      show (!(c == '-')) = true
      rw [hc]
      rfl

/-- Every title-derived slug is URL-safe (possibly empty). -/
theorem slugTransform_urlSafe (s : String) : urlSafe (slugTransform s) = true :=
  urlSafe_trim_collapse _

/-- Counterexample to C8 as stated: an explicit rich-text Slug property
is returned verbatim by getSlug, so the slug "Mi Slug!" — with an
uppercase letter, a space and an exclamation mark — is used as the store
key even though it is not URL-safe; and a page whose title has no
alphanumeric characters and no explicit slug gets the empty slug,
violating non-emptiness. -/
theorem getSlug_explicit_slug_not_urlsafe :
    getSlug badSlugPage = "Mi Slug!" ∧ urlSafe "Mi Slug!" = false ∧
    getRichText noAlnumTitlePage "Slug" = "" ∧ getSlug noAlnumTitlePage = "" :=
  ⟨by decide, by decide, by decide, by decide⟩

/-- C8 amended: when the record has no (non-empty) explicit slug
property, the title-derived slug is URL-safe — only lowercase ASCII
alphanumerics and hyphens, with no leading or trailing hyphen — though it
may be empty when the title has no alphanumeric characters; an explicit
slug property is used verbatim, with no URL-safety guarantee. -/
theorem getSlug_title_derived_urlsafe : ∀ (page : PageObjectResponse),
    getRichText page "Slug" = "" → urlSafe (getSlug page) = true := by
  intro page h
  rw [getSlug]
  simp only [h, ne_eq, not_true_eq_false, if_false]
  exact slugTransform_urlSafe _

/-- Witness for C8 at a concrete page: the example page has no explicit
slug and its derived slug is URL-safe. -/
theorem getSlug_title_derived_urlsafe_witness :
    getRichText examplePage "Slug" = "" ∧ urlSafe (getSlug examplePage) = true :=
  ⟨by decide, getSlug_title_derived_urlsafe examplePage (by decide)⟩

/-- Adding fuel never changes a result the block resolver already
produced: a successful run at some fuel succeeds identically at fuel
plus one, jointly for the page loop and the per-page result loop. -/
theorem blocks_mono (env : String → List RawBlock) : ∀ (fuel : Nat),
    (∀ (blockId : String) (c : Option Nat) (acc out : List BlockObjectResponse),
      getBlocksGo env fuel blockId c acc = some out →
      getBlocksGo env (fuel + 1) blockId c acc = some out) ∧
    (∀ (l : List RawBlock) (out : List BlockObjectResponse),
      resolveList env fuel l = some out → resolveList env (fuel + 1) l = some out) := by
  intro fuel
  induction fuel with
  | zero =>
    constructor
    · intro id c acc out h
      simp [getBlocksGo] at h
    · intro l
      induction l with
      | nil =>
        intro out h
        simp only [resolveList] at h ⊢
        exact h
      | cons b rest ihl =>
        intro out h
        rw [resolveList] at h
        by_cases hb : b.has_children = true
        · rw [if_pos hb] at h
          simp [getBlocksGo] at h
        · rw [if_neg hb] at h
          cases hr : resolveList env 0 rest with
          | none => rw [hr] at h; exact absurd h (by simp)
          | some out2 =>
            rw [hr] at h
            rw [resolveList, if_neg hb, ihl out2 hr]
            exact h
  | succ n ihn =>
    have hgo : ∀ (blockId : String) (c : Option Nat) (acc out : List BlockObjectResponse),
        getBlocksGo env (n + 1) blockId c acc = some out →
        getBlocksGo env (n + 1 + 1) blockId c acc = some out := by
      intro id c acc out h
      rw [getBlocksGo] at h
      rw [getBlocksGo]
      cases hr : resolveList env n (chunkAt (env id) c).results with
      | none => rw [hr] at h; exact absurd h (by simp)
      | some out1 =>
        rw [hr] at h
        rw [ihn.2 _ _ hr]
        cases hnext : (if (chunkAt (env id) c).has_more then (chunkAt (env id) c).next_cursor
            else none) with
        | none => rw [hnext] at h; exact h
        | some c' =>
          rw [hnext] at h
          exact ihn.1 _ _ _ _ h
    refine ⟨hgo, ?_⟩
    intro l
    induction l with
    | nil =>
      intro out h
      simp only [resolveList] at h ⊢
      exact h
    | cons b rest ihl =>
      intro out h
      rw [resolveList] at h
      by_cases hb : b.has_children = true
      · rw [if_pos hb] at h
        cases hg : getBlocksGo env (n + 1) b.id none [] with
        | none => rw [hg] at h; exact absurd h (by simp)
        | some cs =>
          rw [hg] at h
          cases hr : resolveList env (n + 1) rest with
          | none => rw [hr] at h; exact absurd h (by simp)
          | some out2 =>
            rw [hr] at h
            rw [resolveList, if_pos hb, hgo _ _ _ _ hg, ihl out2 hr]
            exact h
      · rw [if_neg hb] at h
        cases hr : resolveList env (n + 1) rest with
        | none => rw [hr] at h; exact absurd h (by simp)
        | some out2 =>
          rw [hr] at h
          rw [resolveList, if_neg hb, ihl out2 hr]
          exact h

/-- Fuel monotonicity of the page loop, for any larger fuel. -/
theorem getBlocksGo_mono_le (env : String → List RawBlock) {m n : Nat} (h : m ≤ n) :
    ∀ (blockId : String) (c : Option Nat) (acc out : List BlockObjectResponse),
    getBlocksGo env m blockId c acc = some out → getBlocksGo env n blockId c acc = some out := by
  induction n with
  | zero =>
    intro id c acc out hg
    have : m = 0 := by omega
    subst this
    exact hg
  | succ k ih =>
    intro id c acc out hg
    by_cases hm : m = k + 1
    · subst hm; exact hg
    · exact (blocks_mono env k).1 _ _ _ _ (ih (by omega) _ _ _ _ hg)

/-- Fuel monotonicity of the per-page result loop, for any larger fuel. -/
theorem resolveList_mono_le (env : String → List RawBlock) {m n : Nat} (h : m ≤ n) :
    ∀ (l : List RawBlock) (out : List BlockObjectResponse),
    resolveList env m l = some out → resolveList env n l = some out := by
  induction n with
  | zero =>
    intro l out hg
    have : m = 0 := by omega
    subst this
    exact hg
  | succ k ih =>
    intro l out hg
    by_cases hm : m = k + 1
    · subst hm; exact hg
    · exact (blocks_mono env k).2 _ _ (ih (by omega) _ _ hg)

/-- Resolution of a concatenation is the concatenation of the
resolutions, in order. -/
theorem Resolves_append (env : String → List RawBlock) :
    ∀ (l1 : List RawBlock) (o1 : List BlockObjectResponse) (l2 : List RawBlock)
      (o2 : List BlockObjectResponse),
    Resolves env l1 o1 → Resolves env l2 o2 → Resolves env (l1 ++ l2) (o1 ++ o2) := by
  intro l1 o1 l2 o2 h1 h2
  induction h1 with
  | nil => simpa using h2
  | leaf b rest out hb _ ih => exact Resolves.leaf b _ _ hb ih
  | node b rest cs out hb hcs _ _ ih => exact Resolves.node b _ cs _ hb hcs ih

/-- When every child container of a result page can itself be resolved
with some fuel, the whole page resolves with some fuel, to the Resolves
rendering of its raw blocks. -/
theorem resolveList_exists (env : String → List RawBlock) : ∀ (raws : List RawBlock),
    (∀ b ∈ raws, b.has_children = true →
      ∃ n cs, getBlocksGo env n b.id none [] = some cs ∧ Resolves env (env b.id) cs) →
    ∃ n out, resolveList env n raws = some out ∧ Resolves env raws out := by
  intro raws
  induction raws with
  | nil => intro _; exact ⟨0, [], by simp only [resolveList], Resolves.nil⟩
  | cons b rest ih =>
    intro h
    obtain ⟨n1, out1, hr1, hres1⟩ := ih (fun b' hb' => h b' (List.mem_cons_of_mem _ hb'))
    by_cases hb : b.has_children = true
    · obtain ⟨n2, cs, hg2, hcs⟩ := h b (List.mem_cons_self _ _) hb
      refine ⟨max n1 n2,
        BlockObjectResponse.mk b.id b.btype b.has_children (some cs) :: out1, ?_, ?_⟩
      · rw [resolveList, if_pos hb,
          getBlocksGo_mono_le env (le_max_right n1 n2) _ _ _ _ hg2,
          resolveList_mono_le env (le_max_left n1 n2) _ _ hr1]
      · exact Resolves.node b rest cs out1 hb hcs hres1
    · have hb' : b.has_children = false := by revert hb; cases b.has_children <;> simp
      refine ⟨n1, BlockObjectResponse.mk b.id b.btype b.has_children none :: out1, ?_,
        Resolves.leaf b rest out1 hb' hres1⟩
      rw [resolveList, if_neg hb, hr1]

/-- The cursor loop of getBlocks started at offset s resolves every
remaining child of the container, page by page, extending the
accumulator in order. -/
theorem getBlocksGo_pages (env : String → List RawBlock) (id : String)
    (hid : ∀ b ∈ env id, b.has_children = true →
      ∃ n cs, getBlocksGo env n b.id none [] = some cs ∧ Resolves env (env b.id) cs) :
    ∀ (k s : Nat) (acc : List BlockObjectResponse) (c : Option Nat),
    c.getD 0 = s → (env id).length - s < k →
    ∃ n out, getBlocksGo env n id c acc = some (acc ++ out) ∧
      Resolves env ((env id).drop s) out := by
  intro k
  induction k with
  | zero => intro s acc c hc hk; omega
  | succ k ih =>
    intro s acc c hc hk
    have hsub : ∀ b ∈ ((env id).drop s).take 100, b ∈ env id := fun b hb =>
      ((List.take_sublist _ _).trans (List.drop_sublist _ _)).mem hb
    obtain ⟨n1, out1, hr1, hres1⟩ := resolveList_exists env (((env id).drop s).take 100)
      (fun b hb hbc => hid b (hsub b hb) hbc)
    by_cases hm : s + 100 < (env id).length
    · obtain ⟨n2, out2, hg2, hres2⟩ := ih (s + 100) (acc ++ out1) (some (s + 100)) rfl
        (by omega)
    -- combine fuels
      refine ⟨max n1 n2 + 1, out1 ++ out2, ?_, ?_⟩
      · rw [getBlocksGo]
        simp only [chunkAt, hc]
        rw [resolveList_mono_le env (le_max_left n1 n2) _ _ hr1]
        simp only [hm, decide_True, if_true]
        rw [getBlocksGo_mono_le env (le_max_right n1 n2) _ _ _ _ hg2]
        rw [List.append_assoc]
      · have hsplit : (env id).drop s = ((env id).drop s).take 100 ++ (env id).drop (s + 100) := by
          have : (env id).drop (s + 100) = ((env id).drop s).drop 100 := by
            rw [List.drop_drop]
          rw [this, List.take_append_drop]
        rw [hsplit]
        exact Resolves_append env _ _ _ _ hres1 hres2
    · refine ⟨n1 + 1, out1, ?_, ?_⟩
      · rw [getBlocksGo]
        simp only [chunkAt, hc]
        rw [hr1]
        simp only [hm, decide_False, if_false, Bool.false_eq_true]
      · have htake : ((env id).drop s).take 100 = (env id).drop s :=
          List.take_of_length_le (by simp [List.length_drop]; omega)
        rwa [htake] at hres1

/-- Over an acyclic block source — witnessed by a depth measure that
strictly drops from a container to any child with descendants — the
resolver terminates with the full resolution of any container, for some
fuel. -/
theorem getBlocks_exists (env : String → List RawBlock) (d : String → Nat)
    (hd : ∀ id b, b ∈ env id → b.has_children = true → d b.id < d id) :
    ∀ (k : Nat) (id : String), d id < k →
    ∃ n out, getBlocksGo env n id none [] = some out ∧ Resolves env (env id) out := by
  intro k
  induction k with
  | zero => intro id h; omega
  | succ k ih =>
    intro id hk
    have hid : ∀ b ∈ env id, b.has_children = true →
        ∃ n cs, getBlocksGo env n b.id none [] = some cs ∧ Resolves env (env b.id) cs :=
      fun b hb hbc => ih b.id (by have := hd id b hb hbc; omega)
    obtain ⟨n, out, hg, hres⟩ :=
      getBlocksGo_pages env id hid ((env id).length + 1) 0 [] none rfl (by omega)
    exact ⟨n, out, by simpa using hg, by simpa using hres⟩

/-- Every top-level block of a resolution carries the children field
exactly as its has-descendants flag dictates: attached and itself a
resolution when the flag is set, absent when it is not. -/
theorem Resolves_mem_shape (env : String → List RawBlock) :
    ∀ (raws : List RawBlock) (out : List BlockObjectResponse), Resolves env raws out →
    ∀ b ∈ out,
      (b.has_children = true → ∃ cs, b.children = some cs ∧ Resolves env (env b.id) cs) ∧
      (b.has_children = false → b.children = none) := by
  intro raws out h
  induction h with
  | nil => intro b hb; exact absurd hb (by simp)
  | leaf b0 rest out0 hb0 _ ih =>
    intro b hb
    rcases List.mem_cons.mp hb with hb | hb
    · subst hb
      constructor
      · intro hc
        simp only [BlockObjectResponse.has_children] at hc
        rw [hb0] at hc
        exact absurd hc (by simp)
      · intro _
        rfl
    · exact ih b hb
  | node b0 rest cs out0 hb0 hcs _ _ ih =>
    intro b hb
    rcases List.mem_cons.mp hb with hb | hb
    · subst hb
      constructor
      · intro _
        exact ⟨cs, rfl, hcs⟩
      · intro hc
        simp only [BlockObjectResponse.has_children] at hc
        rw [hb0] at hc
        exact absurd hc (by simp)
    · exact ih b hb

/-- No block anywhere inside a resolved forest has its has-descendants
flag set while its children field is absent. -/
theorem InTree_resolved (env : String → List RawBlock) :
    ∀ (b : BlockObjectResponse) (l : List BlockObjectResponse), InTree b l →
    ∀ (raws : List RawBlock), Resolves env raws l →
    b.has_children = true → b.children ≠ none := by
  intro b l h
  induction h with
  | here l0 hb =>
    intro raws hres hc
    obtain ⟨cs, hcs, _⟩ := (Resolves_mem_shape env raws l0 hres _ hb).1 hc
    simp [hcs]
  | deeper b' l0 cs hb' hch _ ih =>
    intro raws hres hc
    cases hbc : b'.has_children with
    | false =>
      have hn := (Resolves_mem_shape env raws l0 hres b' hb').2 hbc
      rw [hn] at hch
      exact absurd hch (by simp)
    | true =>
      obtain ⟨cs', hcs', hres'⟩ := (Resolves_mem_shape env raws l0 hres b' hb').1 hbc
      rw [hcs'] at hch
      have hceq : cs' = cs := by injection hch
      subst hceq
      exact ih (env b'.id) hres' hc

/-- C7: for every container identifier, against a cold cache and an
acyclic remote block source served in cursor pages, getBlocks returns
(with some fuel) the complete ordered forest rooted at that container in
the source's native order, fully resolved: no block anywhere in the
returned tree has has_children true with an absent children field. -/
theorem getBlocks_fully_resolved : ∀ (env : String → List RawBlock) (d : String → Nat),
    (∀ id b, b ∈ env id → b.has_children = true → d b.id < d id) →
    ∀ (blockId : String), ∃ (fuel : Nat) (out : List BlockObjectResponse),
      getBlocks none env fuel blockId = some out ∧
      Resolves env (env blockId) out ∧
      (∀ b, InTree b out → b.has_children = true → b.children ≠ none) := by
  intro env d hd blockId
  obtain ⟨n, out, hg, hres⟩ := getBlocks_exists env d hd (d blockId + 1) blockId (by omega)
  exact ⟨n, out, by simpa [getBlocks] using hg, hres,
    fun b hb hc => InTree_resolved env b out hb (env blockId) hres hc⟩

/-- Witness for C7 on the synthetic depth-3 source envEx: its depth
measure discharges the acyclicity hypothesis, and the resolution of the
container r exists and is fully resolved. -/
theorem getBlocks_fully_resolved_witness :
    (∀ id b, b ∈ envEx id → b.has_children = true → dEx b.id < dEx id) ∧
    (∃ fuel out, getBlocks none envEx fuel "r" = some out ∧
      Resolves envEx (envEx "r") out ∧
      (∀ b, InTree b out → b.has_children = true → b.children ≠ none)) := by
  have hac : ∀ id b, b ∈ envEx id → b.has_children = true → dEx b.id < dEx id := by
    intro id b hb hc
    simp only [envEx] at hb
    by_cases h1 : id = "r"
    · rw [if_pos h1] at hb
      simp only [List.mem_singleton] at hb
      subst hb
      subst h1
      decide
    · rw [if_neg h1] at hb
      by_cases h2 : id = "x"
      · rw [if_pos h2] at hb
        simp only [List.mem_singleton] at hb
        subst hb
        subst h2
        decide
      · rw [if_neg h2] at hb
        by_cases h3 : id = "y"
        · rw [if_pos h3] at hb
          simp only [List.mem_singleton] at hb
          subst hb
          simp at hc
        · rw [if_neg h3] at hb
          exact absurd hb (by simp)
  exact ⟨hac, getBlocks_fully_resolved envEx dEx hac "r"⟩
